import Mathlib

/-!
# Verification of the stm32-power-scope streaming core

Shallow embedding of the embedded streaming core: CRC-16/CCITT-FALSE
(`ps_crc16_le`, src/firmware/app/board.h), the frame codec
(`proto_write_frame` / `proto_parse_frame`, modelled from the spec where the
implementation is absent from the tree), the SPSC ring buffer
(src/powerscope/src/ring_buffer.c), the TX engine (src/powerscope/src/ps_tx.c),
the RX parse/dispatch loop (ps_core.c), the command parsers
(src/powerscope/src/ps_cmd_parsers.c) and the SET_PERIOD handler
(src/powerscope/src/ps_app.c).

Machine integers are modelled as `Nat` with explicit `% 2^w` where the C code
relies on unsigned wraparound.  Byte queues behind the `ps_buffer_if_t`
interface are modelled as byte lists (the linear realization used by the
repository's own unit-test mocks).
-/

namespace PowerScope

/-! ## CRC-16/CCITT-FALSE (src/firmware/app/board.h, `ps_crc16_le`) -/

/-- One shift step of the inner loop of `ps_crc16_le`:
`crc = (crc & 0x8000) ? ((crc << 1) ^ 0x1021) : (crc << 1)` on `uint16_t`. -/
def crc16_shift (c : Nat) : Nat :=
  if c &&& 0x8000 ≠ 0 then ((c <<< 1) ^^^ 0x1021) % 65536 else (c <<< 1) % 65536

/-- Iterations (`n`-fold) of `crc16_shift` (the `for (int i = 0; i < 8; ++i)` loop). -/
def crc16_bits : Nat → Nat → Nat
  | 0, c => c
  | n + 1, c => crc16_bits n (crc16_shift c)

/-- CRC-16/CCITT-FALSE over a byte list with running seed, mirroring
`ps_crc16_le(data, len, crc)`: `crc ^= (*p++) << 8` then eight shift steps,
for each byte. -/
def ps_crc16_le : List Nat → Nat → Nat
  | [], c => c
  | b :: rest, c => ps_crc16_le rest (crc16_bits 8 ((c ^^^ (b <<< 8)) % 65536))

/-- Seed used for a fresh CRC computation (`PS_CRC16_INIT`). -/
def PS_CRC16_INIT : Nat := 0xFFFF

theorem crc16_shift_lt (c : Nat) : crc16_shift c < 65536 := by
  unfold crc16_shift
  split <;> exact Nat.mod_lt _ (by norm_num)

theorem crc16_bits_lt (n c : Nat) (h : c < 65536) : crc16_bits n c < 65536 := by
  induction n generalizing c with
  | zero => exact h
  | succ n ih => exact ih _ (crc16_shift_lt c)

theorem ps_crc16_le_lt (l : List Nat) (c : Nat) (h : c < 65536) :
    ps_crc16_le l c < 65536 := by
  induction l generalizing c with
  | nil => exact h
  | cons b rest ih =>
      exact ih _ (crc16_bits_lt 8 _ (Nat.mod_lt _ (by norm_num)))

/-! ## Wire protocol constants (spec §3/§6; protocol_defs.h) -/

def PROTO_MAGIC : Nat := 0x5AA5
def PROTO_VERSION : Nat := 0
def PROTO_TYPE_STREAM : Nat := 0
def PROTO_TYPE_CMD : Nat := 1
def PROTO_TYPE_ACK : Nat := 2
def PROTO_TYPE_NACK : Nat := 3
def PROTO_HDR_LEN : Nat := 16
def PROTO_CRC_LEN : Nat := 2
def PROTO_MAX_PAYLOAD : Nat := 46
def PROTO_FRAME_MAX_BYTES : Nat := 64

/-- 16-byte frame header (spec §3; the packed `proto_hdr_t` with `cmd_id`). -/
structure proto_hdr_t where
  magic : Nat
  type : Nat
  ver : Nat
  len : Nat
  cmd_id : Nat
  rsv : Nat
  seq : Nat
  ts_ms : Nat
  deriving Repr, DecidableEq

/-- Little-endian 16-bit serialization (`byteio_wr_u16le`). -/
def le16 (v : Nat) : List Nat := [v % 256, v / 256 % 256]

/-- Little-endian 32-bit serialization (`byteio_wr_u32le`). -/
def le32 (v : Nat) : List Nat :=
  [v % 256, v / 256 % 256, v / 65536 % 256, v / 16777216 % 256]

/-- Modelled from the spec: `write_frame` (§4.2 and the §6 wire layout).  The
C implementation of `proto_write_frame` for the cmd_id-bearing protocol is not
under src/ (only its declaration, documentation and tests are).  Clamps the
payload to `MAX_PAYLOAD`, fails when the destination capacity is below
`HDR_LEN + payload_len + CRC_LEN`, serializes the header little-endian in the
fixed field order, copies the payload, and appends the CRC over
header‖payload with seed 0xFFFF, little-endian.  `some frame` stands for a
return of `frame.length`; `none` stands for a return of 0. -/
def proto_write_frame (cap ty cmd_id : Nat) (payload : List Nat)
    (seq ts_ms : Nat) : Option (List Nat) :=
  let p := payload.take PROTO_MAX_PAYLOAD
  if cap < PROTO_HDR_LEN + p.length + PROTO_CRC_LEN then none
  else
    let hdr := le16 PROTO_MAGIC ++ [ty, PROTO_VERSION] ++ le16 p.length ++
      [cmd_id, 0] ++ le32 seq ++ le32 ts_ms
    let crc := ps_crc16_le (hdr ++ p) PS_CRC16_INIT
    some (hdr ++ p ++ le16 crc)

/-- Modelled from the spec: `parse_frame` (§4.2).  The C implementation of
`proto_parse_frame` for the cmd_id-bearing protocol is not under src/ (only
its declaration, documentation and test stubs are).  Returns `none` when
fewer than `HDR_LEN + CRC_LEN` bytes are available, the magic or version is
wrong, the declared length exceeds `MAX_PAYLOAD`, the buffer is shorter than
the full frame, or the CRC mismatches; otherwise returns the consumed length
`HDR_LEN + len + CRC_LEN`, the decoded header and the payload slice. -/
def proto_parse_frame (buf : List Nat) : Option (Nat × proto_hdr_t × List Nat) :=
  match buf with
  | m0 :: m1 :: ty :: ver :: l0 :: l1 :: cmd :: rsv :: s0 :: s1 :: s2 :: s3 ::
      t0 :: t1 :: t2 :: t3 :: rest =>
    if rest.length < PROTO_CRC_LEN then none
    else
      let dlen := l0 + 256 * l1
      if m0 + 256 * m1 ≠ PROTO_MAGIC then none
      else if ver ≠ PROTO_VERSION then none
      else if dlen > PROTO_MAX_PAYLOAD then none
      else if rest.length < dlen + PROTO_CRC_LEN then none
      else
        let hdrpay := [m0, m1, ty, ver, l0, l1, cmd, rsv, s0, s1, s2, s3,
          t0, t1, t2, t3] ++ rest.take dlen
        let crc_calc := ps_crc16_le hdrpay PS_CRC16_INIT
        if (rest.drop dlen).getD 0 0 + 256 * (rest.drop dlen).getD 1 0 ≠ crc_calc
        then none
        else some (PROTO_HDR_LEN + dlen + PROTO_CRC_LEN,
          ⟨m0 + 256 * m1, ty, ver, dlen, cmd, rsv,
           s0 + 256 * s1 + 65536 * s2 + 16777216 * s3,
           t0 + 256 * t1 + 65536 * t2 + 16777216 * t3⟩,
          rest.take dlen)
  | _ => none

theorem le16_decode (v : Nat) (h : v < 65536) :
    v % 256 + 256 * (v / 256 % 256) = v := by omega

theorem le32_decode (v : Nat) (h : v < 4294967296) :
    v % 256 + 256 * (v / 256 % 256) + 65536 * (v / 65536 % 256) +
      16777216 * (v / 16777216 % 256) = v := by omega

/-- C9: the CRC-16/CCITT-FALSE function returns the seed unchanged over empty
input, and threads incrementally: `crc16(a ++ b, seed) = crc16(b, crc16(a, seed))`
for all byte strings `a`, `b` and every seed. -/
theorem crc16_algebra :
    (∀ seed, ps_crc16_le [] seed = seed) ∧
    (∀ a b seed, ps_crc16_le (a ++ b) seed = ps_crc16_le b (ps_crc16_le a seed)) := by
  constructor
  · intro seed; rfl
  · intro a b
    induction a with
    | nil => intro seed; rfl
    | cons x xs ih =>
        intro seed
        simpa only [List.cons_append, ps_crc16_le] using ih _

/-- C2: round-trip law.  For every frame `F = (type, cmd_id, seq, ts_ms,
payload)` with `payload_len ≤ MAX_PAYLOAD`, writing `F` into a buffer of
capacity `≥ HDR_LEN + payload_len + CRC_LEN` returns the total frame length
`HDR_LEN + payload_len + CRC_LEN`, and parsing exactly those bytes succeeds,
consumes exactly that length, and yields header fields equal to `F`'s and the
payload byte-for-byte. -/
theorem proto_write_parse_roundtrip (cap ty cmd seq ts : Nat) (payload : List Nat)
    (hty : ty < 256) (hcmd : cmd < 256)
    (hseq : seq < 4294967296) (hts : ts < 4294967296)
    (hpl : payload.length ≤ PROTO_MAX_PAYLOAD)
    (hcap : PROTO_HDR_LEN + payload.length + PROTO_CRC_LEN ≤ cap) :
    ∃ frame, proto_write_frame cap ty cmd payload seq ts = some frame ∧
      frame.length = PROTO_HDR_LEN + payload.length + PROTO_CRC_LEN ∧
      proto_parse_frame frame =
        some (PROTO_HDR_LEN + payload.length + PROTO_CRC_LEN,
          ⟨PROTO_MAGIC, ty, PROTO_VERSION, payload.length, cmd, 0, seq, ts⟩,
          payload) := by
  have hmax : PROTO_MAX_PAYLOAD = 46 := rfl
  have htake : payload.take PROTO_MAX_PAYLOAD = payload :=
    List.take_of_length_le hpl
  have hplen : payload.length ≤ 46 := hmax ▸ hpl
  -- the serialized header and CRC
  set hdr : List Nat := le16 PROTO_MAGIC ++ [ty, PROTO_VERSION] ++
    le16 payload.length ++ [cmd, 0] ++ le32 seq ++ le32 ts with hhdr
  set crc : Nat := ps_crc16_le (hdr ++ payload) PS_CRC16_INIT with hcrc
  have hcrclt : crc < 65536 := ps_crc16_le_lt _ _ (by decide)
  have hwrite : proto_write_frame cap ty cmd payload seq ts =
      some (hdr ++ payload ++ le16 crc) := by
    unfold proto_write_frame
    simp only [htake, hhdr, hcrc]
    rw [if_neg (by simp only [PROTO_HDR_LEN, PROTO_CRC_LEN] at hcap ⊢; omega)]
  refine ⟨hdr ++ payload ++ le16 crc, hwrite, ?_, ?_⟩
  · simp [hhdr, le16, le32, PROTO_HDR_LEN, PROTO_CRC_LEN]
    omega
  · -- parsing the written bytes
    have hshape : hdr ++ payload ++ le16 crc =
        (PROTO_MAGIC % 256) :: (PROTO_MAGIC / 256 % 256) :: ty :: PROTO_VERSION ::
        (payload.length % 256) :: (payload.length / 256 % 256) :: cmd :: 0 ::
        (seq % 256) :: (seq / 256 % 256) :: (seq / 65536 % 256) ::
        (seq / 16777216 % 256) ::
        (ts % 256) :: (ts / 256 % 256) :: (ts / 65536 % 256) ::
        (ts / 16777216 % 256) ::
        (payload ++ [crc % 256, crc / 256 % 256]) := by
      simp [hhdr, le16, le32]
    rw [hshape]
    dsimp only [proto_parse_frame]
    have hdlen : payload.length % 256 + 256 * (payload.length / 256 % 256) =
        payload.length := le16_decode _ (by omega)
    have hrest : (payload ++ [crc % 256, crc / 256 % 256]).length =
        payload.length + 2 := by simp
    rw [if_neg (by simp [PROTO_CRC_LEN])]
    rw [if_neg (by
      simp only [PROTO_MAGIC]
      norm_num)]
    rw [if_neg (by simp [PROTO_VERSION])]
    rw [if_neg (by simp only [hdlen, PROTO_MAX_PAYLOAD]; omega)]
    rw [if_neg (by simp only [hdlen, hrest, PROTO_CRC_LEN]; omega)]
    have htakep : (payload ++ [crc % 256, crc / 256 % 256]).take
        (payload.length % 256 + 256 * (payload.length / 256 % 256)) = payload := by
      rw [hdlen]
      exact List.take_left payload _
    have hdropp : (payload ++ [crc % 256, crc / 256 % 256]).drop
        (payload.length % 256 + 256 * (payload.length / 256 % 256)) =
        [crc % 256, crc / 256 % 256] := by
      rw [hdlen]
      exact List.drop_left payload _
    rw [if_neg (by
      rw [hdropp, htakep]
      simp only [List.getD_cons_zero, List.getD_cons_succ]
      rw [le16_decode crc hcrclt]
      intro hne
      apply hne
      simp only [hcrc, hhdr, le16, le32, PS_CRC16_INIT]
      simp [List.append_assoc])]
    rw [htakep, hdlen]
    have hm : PROTO_MAGIC % 256 + 256 * (PROTO_MAGIC / 256 % 256) = PROTO_MAGIC := by
      decide
    rw [hm, le32_decode seq hseq, le32_decode ts hts]

/-- Witness for C2 at a concrete frame: a PING-style ACK with payload
`[1, 2, 3]`, cmd_id 5, seq 7, ts 9, capacity 64. -/
theorem proto_write_parse_roundtrip_witness :
    ∃ frame, proto_write_frame 64 PROTO_TYPE_ACK 5 [1, 2, 3] 7 9 = some frame ∧
      frame.length = PROTO_HDR_LEN + 3 + PROTO_CRC_LEN ∧
      proto_parse_frame frame =
        some (PROTO_HDR_LEN + 3 + PROTO_CRC_LEN,
          ⟨PROTO_MAGIC, PROTO_TYPE_ACK, PROTO_VERSION, 3, 5, 0, 7, 9⟩,
          [1, 2, 3]) :=
  proto_write_parse_roundtrip 64 PROTO_TYPE_ACK 5 7 9 [1, 2, 3]
    (by decide) (by decide) (by decide) (by decide) (by decide) (by decide)

/-! ## Byte-buffer interface (`ps_buffer_if_t`)

`ps_tx.c` and `ps_core.c` operate on the abstract `ps_buffer_if_t` byte-queue
interface.  We model a buffer as its capacity plus the queued byte list (the
linear realization used by the repository's own test mocks and equivalent, at
the interface level, to the ring-buffer adapter): `size` is the queued length,
usable space is `cap − 1` (ring adapter: `space = rb_free = cap − 1 − used`),
`append` is all-or-nothing (`rb_write_try`), `pop` drops from the read end,
`copy` reads from the read end without consuming (`rb_copy_from_tail`), and
`peek_contiguous` exposes the queued bytes. -/

structure ps_buffer_t where
  cap : Nat
  content : List Nat
  deriving Repr, DecidableEq

namespace ps_buffer_t

def size (b : ps_buffer_t) : Nat := b.content.length

def space (b : ps_buffer_t) : Nat := b.cap - 1 - b.content.length

def capacity (b : ps_buffer_t) : Nat := b.cap

def clear (b : ps_buffer_t) : ps_buffer_t := { b with content := [] }

/-- All-or-nothing append (`rb_write_try` behind the adapter): rejects a
write larger than the usable capacity `cap − 1` or larger than the free
space; otherwise appends all bytes. -/
def append (b : ps_buffer_t) (src : List Nat) : Bool × ps_buffer_t :=
  if src.length = 0 then (true, b)
  else if src.length > b.cap - 1 then (false, b)
  else if b.space < src.length then (false, b)
  else (true, { b with content := b.content ++ src })

def pop (b : ps_buffer_t) (n : Nat) : ps_buffer_t :=
  { b with content := b.content.drop n }

def copy (b : ps_buffer_t) (n : Nat) : List Nat := b.content.take n

def peek_contiguous (b : ps_buffer_t) : List Nat := b.content

end ps_buffer_t

/-! ## TX engine (src/powerscope/src/ps_tx.c) -/

/-- Function `drop_one_frame_buf`: drop one whole frame from the TX buffer.  Returns
`1` if something was dropped (a whole frame, or a single garbage byte for
resync), `0` otherwise (fewer than `HDR_LEN + CRC_LEN` bytes, or the head is
an incomplete frame). -/
def drop_one_frame_buf (b : ps_buffer_t) : Nat × ps_buffer_t :=
  let used := b.size
  if used < PROTO_HDR_LEN + PROTO_CRC_LEN then (0, b)
  else
    let hdrB := b.copy PROTO_HDR_LEN
    let magic := hdrB.getD 0 0 + 256 * hdrB.getD 1 0
    let ver := hdrB.getD 3 0
    let hlen := hdrB.getD 4 0 + 256 * hdrB.getD 5 0
    if magic ≠ PROTO_MAGIC ∨ ver ≠ PROTO_VERSION ∨ hlen > PROTO_MAX_PAYLOAD then
      (1, b.pop 1)
    else
      let frame_len := PROTO_HDR_LEN + hlen + PROTO_CRC_LEN
      if used < frame_len then (0, b)
      else (1, b.pop frame_len)

theorem drop_one_frame_buf_cap (b : ps_buffer_t) :
    (drop_one_frame_buf b).2.cap = b.cap := by
  unfold drop_one_frame_buf
  dsimp only
  split
  · rfl
  · split
    · rfl
    · split <;> rfl

theorem drop_one_frame_buf_progress (b : ps_buffer_t) :
    (drop_one_frame_buf b).1 = 0 ∨
      (drop_one_frame_buf b).2.content.length < b.content.length := by
  unfold drop_one_frame_buf
  dsimp only
  split
  · exact Or.inl rfl
  · rename_i h18
    simp only [ps_buffer_t.size, not_lt, PROTO_HDR_LEN, PROTO_CRC_LEN] at h18
    split
    · right
      simp only [ps_buffer_t.pop, List.length_drop]
      omega
    · split
      · exact Or.inl rfl
      · right
        simp only [ps_buffer_t.pop, List.length_drop, PROTO_HDR_LEN, PROTO_CRC_LEN]
        omega

/-- The `while (space < len) { if (!drop_one_frame_buf) { clear; break; } }`
loop of `ps_tx_enqueue_frame`. -/
def ps_tx_make_room (b : ps_buffer_t) (len : Nat) : ps_buffer_t :=
  if b.space < len then
    let d := drop_one_frame_buf b
    if h : d.1 = 0 then b.clear
    else ps_tx_make_room d.2 len
  else b
  termination_by b.content.length
  decreasing_by exact (drop_one_frame_buf_progress b).resolve_left h

/-- Function `ps_tx_enqueue_frame`: reject empty frames and frames above the usable
capacity; otherwise make room frame-aware (clearing as last resort) and
append atomically. -/
def ps_tx_enqueue_frame (b : ps_buffer_t) (frame : List Nat) : ps_buffer_t :=
  if frame.length = 0 then b
  else if b.cap = 0 ∨ frame.length > b.cap - 1 then b
  else
    let b' := ps_tx_make_room b frame.length
    (b'.append frame).2

theorem ps_tx_make_room_spec (b : ps_buffer_t) (len : Nat) :
    len ≤ b.cap - 1 →
    len ≤ (ps_tx_make_room b len).space ∧ (ps_tx_make_room b len).cap = b.cap := by
  induction b, len using ps_tx_make_room.induct with
  | case1 b len hsp d hd0 =>
      intro h
      rw [ps_tx_make_room, if_pos hsp]
      dsimp only
      rw [dif_pos hd0]
      simp only [ps_buffer_t.clear, ps_buffer_t.space, List.length_nil]
      exact ⟨by omega, trivial⟩
  | case2 b len hsp d hd0 ih =>
      intro h
      rw [ps_tx_make_room, if_pos hsp]
      dsimp only
      rw [dif_neg hd0]
      have hc := drop_one_frame_buf_cap b
      have ih2 := ih (by rw [hc]; exact h)
      exact ⟨ih2.1, ih2.2.trans hc⟩
  | case3 b len hsp =>
      intro _
      rw [ps_tx_make_room, if_neg hsp]
      exact ⟨Nat.le_of_not_lt hsp, rfl⟩

/-- C3: for every frame with `1 ≤ len ≤ capacity − 1`, `ps_tx_enqueue_frame`
terminates (it is a total function by well-founded recursion on the ring
content) and ends with the frame appended at the write end of the TX ring:
frames are dropped whole from the read end while `space < len`, the ring is
cleared wholesale when the head is not a complete frame, and the final
all-or-nothing append succeeds. -/
theorem ps_tx_enqueue_frame_appends (b : ps_buffer_t) (frame : List Nat)
    (h1 : 1 ≤ frame.length) (h2 : frame.length ≤ b.cap - 1) :
    ∃ rest, (ps_tx_enqueue_frame b frame).content = rest ++ frame := by
  unfold ps_tx_enqueue_frame
  rw [if_neg (by omega)]
  rw [if_neg (by push_neg; omega)]
  have hsp := ps_tx_make_room_spec b frame.length h2
  refine ⟨(ps_tx_make_room b frame.length).content, ?_⟩
  unfold ps_buffer_t.append
  dsimp only
  rw [if_neg (by omega), if_neg (by push_neg; rw [hsp.2]; omega),
    if_neg (by push_neg; exact hsp.1)]

/-- Witness for C3: a 31-byte-full ring of capacity 32 (one complete 18-byte
header-only frame followed by 13 bytes of an incomplete frame); enqueueing a
20-byte frame drops the whole head frame, then clears, then appends. -/
theorem ps_tx_enqueue_frame_appends_witness :
    ∃ rest, (ps_tx_enqueue_frame
      ⟨32, [0xA5, 0x5A, 2, 0, 0, 0, 5, 0, 7, 0, 0, 0, 9, 0, 0, 0, 11, 22,
            0xA5, 0x5A, 2, 0, 40, 0, 5, 0, 7, 0, 0, 0, 9]⟩
      (List.replicate 20 1)).content = rest ++ List.replicate 20 1 :=
  ps_tx_enqueue_frame_appends _ _ (by decide) (by decide)

/-- TX context (`ps_tx_ctx_t`): stream ring plus the single response slot
(`frame`, `len`, `pending`) and the payload cap. -/
structure ps_tx_ctx_t where
  tx_buf : ps_buffer_t
  max_payload : Nat
  response_slot : List Nat
  response_slot_cap : Nat
  response_len : Nat
  response_pending : Bool
  deriving Repr, DecidableEq

/-- Function `ps_tx_send_response`: clamp the payload to `PROTO_MAX_PAYLOAD`, format
the frame into the response slot; on a writer failure (0 return, modelled as
`none`) or an over-long result, return with the slot state untouched;
otherwise record the new length and set `pending`. -/
def ps_tx_send_response (ctx : ps_tx_ctx_t) (ty cmd_id req_seq ts : Nat)
    (payload : List Nat) : ps_tx_ctx_t :=
  let p := payload.take PROTO_MAX_PAYLOAD
  match proto_write_frame ctx.response_slot_cap ty cmd_id p req_seq ts with
  | none => ctx
  | some frame =>
    if frame.length > ctx.response_slot_cap then ctx
    else { ctx with response_slot := frame, response_len := frame.length,
                    response_pending := true }

/-- Function `ps_tx_pump`: transmit at most one frame.  The transport is passed as the
`link_ready` flag, the `best_chunk` bound, and the `tx_write` function `txw`
(returning the number of bytes written, `0` for busy, `-1` for error).  The
result pairs the new context with the list of transport writes performed. -/
def ps_tx_pump (ctx : ps_tx_ctx_t) (link_ready : Bool) (best_chunk : Nat)
    (txw : List Nat → Int) : ps_tx_ctx_t × List (List Nat) :=
  if link_ready = false then (ctx, [])
  else if ctx.response_pending then
    if ctx.response_len ≤ best_chunk then
      let bytes := ctx.response_slot.take ctx.response_len
      let w := txw bytes
      if 0 < w ∧ w = (ctx.response_len : Int) then
        ({ ctx with response_pending := false }, [bytes])
      else (ctx, [bytes])
    else (ctx, [])
  else
    let buf := ctx.tx_buf
    if buf.size < PROTO_HDR_LEN + PROTO_CRC_LEN then (ctx, [])
    else
      let hdrB := buf.copy PROTO_HDR_LEN
      let magic := hdrB.getD 0 0 + 256 * hdrB.getD 1 0
      let ver := hdrB.getD 3 0
      let hlen := hdrB.getD 4 0 + 256 * hdrB.getD 5 0
      if magic ≠ PROTO_MAGIC ∨ ver ≠ PROTO_VERSION ∨ hlen > PROTO_MAX_PAYLOAD then
        ({ ctx with tx_buf := buf.pop 1 }, [])
      else
        let frame_len := PROTO_HDR_LEN + hlen + PROTO_CRC_LEN
        if buf.size < frame_len ∨ frame_len > best_chunk then (ctx, [])
        else
          let p := buf.peek_contiguous
          if frame_len ≤ p.length then
            let bytes := p.take frame_len
            let w := txw bytes
            if 0 < w ∧ w = (frame_len : Int) then
              ({ ctx with tx_buf := buf.pop frame_len }, [bytes])
            else (ctx, [bytes])
          else
            let bytes := buf.copy frame_len
            let w := txw bytes
            if 0 < w ∧ w = (frame_len : Int) then
              ({ ctx with tx_buf := buf.pop frame_len }, [bytes])
            else (ctx, [bytes])

/-- C4: `ps_tx_pump` writes at most one frame to the transport per invocation,
and whenever a response is pending it never writes or pops bytes of the TX
stream ring: any write performed is the pending response slot, and `pending`
is cleared only when the transport accepted the full response length. -/
theorem ps_tx_pump_priority (ctx : ps_tx_ctx_t) (link_ready : Bool)
    (best_chunk : Nat) (txw : List Nat → Int) :
    (ps_tx_pump ctx link_ready best_chunk txw).2.length ≤ 1 ∧
    (ctx.response_pending = true →
      (ps_tx_pump ctx link_ready best_chunk txw).1.tx_buf = ctx.tx_buf ∧
      (∀ bs ∈ (ps_tx_pump ctx link_ready best_chunk txw).2,
        bs = ctx.response_slot.take ctx.response_len) ∧
      ((ps_tx_pump ctx link_ready best_chunk txw).1.response_pending = false →
        0 < txw (ctx.response_slot.take ctx.response_len) ∧
        txw (ctx.response_slot.take ctx.response_len) =
          (ctx.response_len : Int))) := by
  unfold ps_tx_pump
  dsimp only
  split
  · rename_i hlink
    exact ⟨by simp, fun hp => ⟨rfl, by simp, fun hf => absurd (hp ▸ hf) (by simp)⟩⟩
  · rename_i hlink
    by_cases hp : ctx.response_pending
    · rw [if_pos hp]
      split
      · rename_i hchunk
        split
        · rename_i hw
          exact ⟨by simp, fun _ => ⟨rfl, by simp, fun _ => ⟨hw.1, hw.2⟩⟩⟩
        · rename_i hw
          exact ⟨by simp, fun _ => ⟨rfl, by simp,
            fun hf => absurd (hf ▸ hp) (by simp)⟩⟩
      · exact ⟨by simp, fun _ => ⟨rfl, by simp,
          fun hf => absurd (hf ▸ hp) (by simp)⟩⟩
    · rw [if_neg hp]
      have hnp : (true = ctx.response_pending) → False := fun h =>
        hp (by simp [← h])
      refine ⟨?_, fun hpp => absurd hpp (by simpa using hp)⟩
      repeat' split
      all_goals simp

/-- Witness for C4: a pending 18-byte response, ready link, 64-byte chunks
and a transport that accepts 18 bytes; the response is the only write and
`pending` is cleared. -/
theorem ps_tx_pump_priority_witness :
    (ps_tx_pump ⟨⟨32, [1, 2, 3]⟩, 46, List.replicate 18 7, 64, 18, true⟩
        true 64 (fun _ => 18)).2.length ≤ 1 ∧
    ((ps_tx_pump ⟨⟨32, [1, 2, 3]⟩, 46, List.replicate 18 7, 64, 18, true⟩
        true 64 (fun _ => 18)).1.tx_buf = ⟨32, [1, 2, 3]⟩ ∧
      (∀ bs ∈ (ps_tx_pump ⟨⟨32, [1, 2, 3]⟩, 46, List.replicate 18 7, 64, 18, true⟩
          true 64 (fun _ => 18)).2,
        bs = (List.replicate 18 7).take 18) ∧
      ((ps_tx_pump ⟨⟨32, [1, 2, 3]⟩, 46, List.replicate 18 7, 64, 18, true⟩
          true 64 (fun _ => 18)).1.response_pending = false →
        0 < (fun (_ : List Nat) => (18 : Int)) ((List.replicate 18 7).take 18) ∧
        (fun (_ : List Nat) => (18 : Int)) ((List.replicate 18 7).take 18) =
          ((18 : Nat) : Int))) :=
  ⟨(ps_tx_pump_priority ⟨⟨32, [1, 2, 3]⟩, 46, List.replicate 18 7, 64, 18, true⟩
      true 64 (fun _ => 18)).1,
   (ps_tx_pump_priority ⟨⟨32, [1, 2, 3]⟩, 46, List.replicate 18 7, 64, 18, true⟩
      true 64 (fun _ => 18)).2 rfl⟩

/-- C10: `ps_tx_send_response` is atomic on failure.  It clamps the payload
to `PROTO_MAX_PAYLOAD` before formatting; if the frame writer fails (returns
0, i.e. `none`) the context — in particular `response_len` and
`response_pending` — is unchanged, so a previously formed pending response is
preserved; likewise when the writer reports a length exceeding the slot
capacity; on success the slot is overwritten, `response_len` set to the new
frame length, and `response_pending` set. -/
theorem ps_tx_send_response_atomic (ctx : ps_tx_ctx_t)
    (ty cmd_id req_seq ts : Nat) (payload : List Nat) :
    (proto_write_frame ctx.response_slot_cap ty cmd_id
        (payload.take PROTO_MAX_PAYLOAD) req_seq ts = none →
      ps_tx_send_response ctx ty cmd_id req_seq ts payload = ctx) ∧
    (∀ frame, proto_write_frame ctx.response_slot_cap ty cmd_id
        (payload.take PROTO_MAX_PAYLOAD) req_seq ts = some frame →
      (frame.length > ctx.response_slot_cap →
        ps_tx_send_response ctx ty cmd_id req_seq ts payload = ctx) ∧
      (frame.length ≤ ctx.response_slot_cap →
        ps_tx_send_response ctx ty cmd_id req_seq ts payload =
          { ctx with response_slot := frame, response_len := frame.length,
                     response_pending := true })) := by
  constructor
  · intro hw
    unfold ps_tx_send_response
    dsimp only
    rw [hw]
  · intro frame hw
    constructor
    · intro hlong
      unfold ps_tx_send_response
      dsimp only
      rw [hw]
      dsimp only
      rw [if_pos hlong]
    · intro hfit
      unfold ps_tx_send_response
      dsimp only
      rw [hw]
      dsimp only
      rw [if_neg (by omega)]

/-- Witness for C10: with a zero-capacity response slot the writer fails and
the context, including a previously formed pending response, is preserved. -/
theorem ps_tx_send_response_atomic_witness :
    ps_tx_send_response ⟨⟨32, []⟩, 46, List.replicate 18 7, 0, 18, true⟩
      PROTO_TYPE_ACK 5 7 9 [] =
      ⟨⟨32, []⟩, 46, List.replicate 18 7, 0, 18, true⟩ :=
  (ps_tx_send_response_atomic ⟨⟨32, []⟩, 46, List.replicate 18 7, 0, 18, true⟩
    PROTO_TYPE_ACK 5 7 9 []).1 (by decide)

/-! ## SPSC ring buffer (src/powerscope/src/ring_buffer.c)

`head` and `tail` are free-running `uint16_t` indices (wrapping mod 2^16),
masked with `cap − 1` for addressing; `rejected` is a `uint32_t` counter.
The backing memory is a function `Nat → Nat`. -/

structure rb_t where
  buf : Nat → Nat
  cap : Nat
  head : Nat
  tail : Nat
  rejected : Nat
  highwater : Nat

/-- The `uint16_t` wrapping subtraction `a - b` (for `b` reduced mod 2^16). -/
def sub16 (a b : Nat) : Nat := (a + 65536 - b % 65536) % 65536

def rb_init (mem : Nat → Nat) (cap_pow2 : Nat) : rb_t :=
  ⟨mem, cap_pow2, 0, 0, 0, 0⟩

def rb_clear (r : rb_t) : rb_t := { r with tail := r.head }

def rb_capacity (r : rb_t) : Nat := r.cap

/-- Function `rb_used`: `(uint16_t)(head - tail) & (cap - 1)`. -/
def rb_used (r : rb_t) : Nat := sub16 r.head r.tail &&& (r.cap - 1)

/-- Function `rb_free`: `cap - 1 - used`. -/
def rb_free (r : rb_t) : Nat := r.cap - 1 - rb_used r

def rb_reject_count (r : rb_t) : Nat := r.rejected

def rb_highwater (r : rb_t) : Nat := r.highwater

/-- Function `rb_peek_linear`: length of the longest contiguous run at the read index,
clipped to `used` (the pointer is implicit in the model). -/
def rb_peek_linear (r : rb_t) : Nat :=
  let used := rb_used r
  if used = 0 then 0
  else
    let mask := r.cap - 1
    let linear := r.cap - (r.tail &&& mask)
    if linear > used then used else linear

def rb_pop (r : rb_t) (n : Nat) : rb_t := { r with tail := (r.tail + n) % 65536 }

/-- Function `rb_copy_from_tail`: non-destructive copy of `min(n, used)` bytes from the
read index, in two contiguous runs when wrapping. -/
def rb_copy_from_tail (r : rb_t) (n : Nat) : List Nat :=
  let used := rb_used r
  let m := if n > used then used else n
  if m = 0 then []
  else
    let mask := r.cap - 1
    let linear := r.cap - (r.tail &&& mask)
    let first := if m < linear then m else linear
    ((List.range first).map fun k => r.buf ((r.tail &&& mask) + k)) ++
      ((List.range (m - first)).map r.buf)

/-- Function `rb_write_try`: all-or-nothing write of `src`; on rejection adds the length
to the `rejected` counter (`uint32_t`); on success stores the bytes in two
contiguous runs, publishes the new head, and updates the high-watermark. -/
def rb_write_try (r : rb_t) (src : List Nat) : Nat × rb_t :=
  if src.length = 0 then (0, r)
  else if src.length > r.cap - 1 then
    (0, { r with rejected := (r.rejected + src.length) % 4294967296 })
  else if rb_free r < src.length then
    (0, { r with rejected := (r.rejected + src.length) % 4294967296 })
  else
    let mask := r.cap - 1
    let h := r.head
    let first := if src.length < r.cap - (h &&& mask) then src.length
      else r.cap - (h &&& mask)
    let buf1 := (List.range first).foldl
      (fun f k => Function.update f ((h &&& mask) + k) (src.getD k 0)) r.buf
    let buf2 := (List.range (src.length - first)).foldl
      (fun f k => Function.update f k (src.getD (first + k) 0)) buf1
    let r' := { r with buf := buf2, head := (h + src.length) % 65536 }
    let u := rb_used r'
    (src.length, if u > r'.highwater then { r' with highwater := u } else r')

/-- Ring states reachable from `rb_init` with a power-of-two capacity
`2^k ≤ 65536` by writes, pops bounded by `used`, and clears
(`rb_peek_linear` and `rb_copy_from_tail` do not change state). -/
inductive rb_reachable : rb_t → Prop
  | init (mem : Nat → Nat) (k : Nat) (hk : k ≤ 16) :
      rb_reachable (rb_init mem (2 ^ k))
  | write (r : rb_t) (src : List Nat) :
      rb_reachable r → rb_reachable (rb_write_try r src).2
  | pop (r : rb_t) (n : Nat) (hn : n ≤ rb_used r) :
      rb_reachable r → rb_reachable (rb_pop r n)
  | clear (r : rb_t) : rb_reachable r → rb_reachable (rb_clear r)

/-- Structural facts maintained by every ring operation. -/
def rb_wf (r : rb_t) : Prop :=
  (∃ k ≤ 16, r.cap = 2 ^ k) ∧ r.head < 65536 ∧ r.tail < 65536

theorem rb_reachable_wf (r : rb_t) (h : rb_reachable r) : rb_wf r := by
  induction h with
  | init mem k hk =>
      exact ⟨⟨k, hk, rfl⟩, by norm_num [rb_init], by norm_num [rb_init]⟩
  | write r src ih _ =>
      rename_i hwf
      unfold rb_write_try
      obtain ⟨hc, hh, ht⟩ := hwf
      repeat' split
      all_goals dsimp only
      all_goals
        first
          | exact ⟨hc, hh, ht⟩
          | (obtain ⟨k, hk, hck⟩ := hc
             exact ⟨⟨k, hk, by rw [apply_ite rb_t.cap, ite_self]; exact hck⟩,
               by rw [apply_ite rb_t.head, ite_self]
                  exact Nat.mod_lt _ (by norm_num),
               by rw [apply_ite rb_t.tail, ite_self]; exact ht⟩)
  | pop r n hn ih =>
      rename_i hwf
      obtain ⟨hc, hh, ht⟩ := hwf
      exact ⟨hc, hh, Nat.mod_lt _ (by norm_num)⟩
  | clear r ih =>
      rename_i hwf
      obtain ⟨hc, hh, ht⟩ := hwf
      exact ⟨hc, hh, hh⟩

theorem rb_used_eq_of_wf (r : rb_t) (h : rb_wf r) :
    rb_used r = (r.head + 65536 - r.tail) % r.cap ∧ rb_used r ≤ r.cap - 1 := by
  obtain ⟨⟨k, hk, hcap⟩, hh, ht⟩ := h
  have hdvd : r.cap ∣ 65536 := by
    have h16 : (65536 : Nat) = 2 ^ 16 := by norm_num
    rw [hcap, h16]
    exact pow_dvd_pow 2 hk
  have hcappos : 0 < r.cap := hcap ▸ Nat.pos_pow_of_pos k (by norm_num)
  have hmask : sub16 r.head r.tail &&& (r.cap - 1) =
      sub16 r.head r.tail % r.cap := by
    rw [hcap]
    exact Nat.and_pow_two_sub_one_eq_mod _ k
  have hsub : sub16 r.head r.tail % r.cap = (r.head + 65536 - r.tail) % r.cap := by
    unfold sub16
    rw [Nat.mod_eq_of_lt ht]
    exact Nat.mod_mod_of_dvd _ hdvd
  constructor
  · rw [rb_used, hmask, hsub]
  · rw [rb_used, hmask]
    have hlt : sub16 r.head r.tail % r.cap < r.cap :=
      Nat.mod_lt _ hcappos
    omega

/-- C6: ring buffer invariant.  For every state reachable from `rb_init` with
power-of-two capacity `≤ 65536` by `rb_write_try`, `rb_pop` with `n ≤ used`,
`rb_peek_linear`, `rb_copy_from_tail` and `rb_clear`:
`used = (write − read) mod cap` (wrap-safe 16-bit subtraction),
`free = cap − 1 − used`, hence `used + free = cap − 1` and `used ≤ cap − 1`. -/
theorem rb_invariant (r : rb_t) (h : rb_reachable r) :
    rb_used r = (r.head + 65536 - r.tail) % r.cap ∧
    rb_free r = r.cap - 1 - rb_used r ∧
    rb_used r + rb_free r = r.cap - 1 ∧
    rb_used r ≤ r.cap - 1 := by
  have hwf := rb_reachable_wf r h
  obtain ⟨heq, hle⟩ := rb_used_eq_of_wf r hwf
  exact ⟨heq, rfl, by rw [rb_free]; omega, hle⟩

/-- Witness for C6: init a 16-byte ring, write 3 bytes, pop 1; the invariant
holds at the resulting state. -/
theorem rb_invariant_witness :
    rb_used (rb_pop (rb_write_try (rb_init (fun _ => 0) 16) [5, 6, 7]).2 1) =
      ((rb_pop (rb_write_try (rb_init (fun _ => 0) 16) [5, 6, 7]).2 1).head +
        65536 -
        (rb_pop (rb_write_try (rb_init (fun _ => 0) 16) [5, 6, 7]).2 1).tail) %
        (rb_pop (rb_write_try (rb_init (fun _ => 0) 16) [5, 6, 7]).2 1).cap ∧
    rb_free (rb_pop (rb_write_try (rb_init (fun _ => 0) 16) [5, 6, 7]).2 1) =
      (rb_pop (rb_write_try (rb_init (fun _ => 0) 16) [5, 6, 7]).2 1).cap - 1 -
        rb_used (rb_pop (rb_write_try (rb_init (fun _ => 0) 16) [5, 6, 7]).2 1) ∧
    rb_used (rb_pop (rb_write_try (rb_init (fun _ => 0) 16) [5, 6, 7]).2 1) +
        rb_free (rb_pop (rb_write_try (rb_init (fun _ => 0) 16) [5, 6, 7]).2 1) =
      (rb_pop (rb_write_try (rb_init (fun _ => 0) 16) [5, 6, 7]).2 1).cap - 1 ∧
    rb_used (rb_pop (rb_write_try (rb_init (fun _ => 0) 16) [5, 6, 7]).2 1) ≤
      (rb_pop (rb_write_try (rb_init (fun _ => 0) 16) [5, 6, 7]).2 1).cap - 1 :=
  rb_invariant _
    (rb_reachable.pop _ 1
      (by decide)
      (rb_reachable.write _ [5, 6, 7] (rb_reachable.init (fun _ => 0) 4 (by decide))))

/-! ## RX parse and dispatch loop (`ps_core_process_rx`, `handle_cmd_frame`)

Embedding of the current core RX loop (the revision whose `handle_cmd_frame`
dispatches on `hdr->cmd_id` and always answers with one ACK or NACK).  The RX
ring is modelled through the `ps_buffer_if_t` contract as the queued byte
list, so `peek_contiguous` returns everything that `size` reports.  The
dispatcher is abstracted as a function `cmd_id → payload → handled?`; the
responses emitted through the TX response path (`ps_tx_send_ack` /
`ps_tx_send_nack`, i.e. `ps_tx_send_response` with the echoed ids) are
collected in a list. -/

/-- One emitted command response: frame type (ACK or NACK) plus the echoed
`cmd_id` and `seq`. -/
structure ps_response_t where
  rtype : Nat
  cmd_id : Nat
  seq : Nat
  deriving Repr, DecidableEq

/-- Function `handle_cmd_frame`: run the dispatcher on the frame's `cmd_id` and
payload; emit exactly one ACK on success, one NACK otherwise, echoing the
frame's `cmd_id` and `seq`. -/
def handle_cmd_frame (dispatch : Nat → List Nat → Bool) (hdr : proto_hdr_t)
    (payload : List Nat) : ps_response_t :=
  let handled := dispatch hdr.cmd_id payload
  ⟨if handled then PROTO_TYPE_ACK else PROTO_TYPE_NACK, hdr.cmd_id, hdr.seq⟩

/-- The magic-scan of the RX loop: starting at offset 1, advance while
`offset + 1 < contiguous` until the two bytes at `offset` read `0x5AA5`. -/
def rx_scan_magic (data : List Nat) (offset : Nat) : Nat :=
  if offset + 1 < data.length then
    if data.getD offset 0 ||| (data.getD (offset + 1) 0 <<< 8) = PROTO_MAGIC then
      offset
    else rx_scan_magic data (offset + 1)
  else offset
  termination_by data.length - offset

theorem rx_scan_magic_ge (data : List Nat) (offset : Nat) :
    offset ≤ rx_scan_magic data offset := by
  induction offset using rx_scan_magic.induct data with
  | case1 offset h1 h2 =>
      rw [rx_scan_magic, if_pos h1, if_pos h2]
  | case2 offset h1 h2 ih =>
      rw [rx_scan_magic, if_pos h1, if_neg h2]
      omega
  | case3 offset h1 =>
      rw [rx_scan_magic, if_neg h1]

theorem proto_parse_frame_some_len (buf : List Nat) (fl : Nat)
    (hdr : proto_hdr_t) (pl : List Nat)
    (h : proto_parse_frame buf = some (fl, hdr, pl)) : 18 ≤ fl := by
  unfold proto_parse_frame at h
  split at h
  · dsimp only at h
    repeat' split at h
    all_goals simp only [Option.some.injEq, Prod.mk.injEq,
      reduceCtorEq] at h
    obtain ⟨hfl, -⟩ := h
    simp only [PROTO_HDR_LEN, PROTO_CRC_LEN] at hfl
    omega
  · exact absurd h (by simp)

/-- Function `ps_core_process_rx`: while at least `HDR_LEN + CRC_LEN` bytes are
queued, align on the magic (scanning forward and popping the skipped
prefix), parse; on parse failure pop 2 bytes and continue; on success handle
CMD frames through `handle_cmd_frame` and pop the consumed frame.  Returns
the remaining RX bytes and the emitted responses in order. -/
def ps_core_process_rx (dispatch : Nat → List Nat → Bool) (rx : List Nat) :
    List Nat × List ps_response_t :=
  if h18 : PROTO_HDR_LEN + PROTO_CRC_LEN ≤ rx.length then
    if rx.getD 0 0 ||| (rx.getD 1 0 <<< 8) ≠ PROTO_MAGIC then
      ps_core_process_rx dispatch (rx.drop (rx_scan_magic rx 1))
    else
      match hp : proto_parse_frame rx with
      | none => ps_core_process_rx dispatch (rx.drop 2)
      | some (frame_len, hdr, payload) =>
        let resps := if hdr.type = PROTO_TYPE_CMD
          then [handle_cmd_frame dispatch hdr payload] else []
        let rest := ps_core_process_rx dispatch (rx.drop frame_len)
        (rest.1, resps ++ rest.2)
  else (rx, [])
  termination_by rx.length
  decreasing_by
  · have h1 : 1 ≤ rx_scan_magic rx 1 := rx_scan_magic_ge rx 1
    have h18' : 18 ≤ rx.length := h18
    simp only [List.length_drop]
    omega
  · have h18' : 18 ≤ rx.length := h18
    simp only [List.length_drop]
    omega
  · have h1 := proto_parse_frame_some_len rx frame_len hdr payload hp
    have h18' : 18 ≤ rx.length := h18
    simp only [List.length_drop]
    omega

/-- The CMD frames accepted by the core in one RX pass, following the
claim's words: the frames that `proto_parse_frame` parses successfully at
the (resynchronized) ring head and whose header type is CMD, in order, as
(header, payload) pairs. -/
def rx_accepted_cmds (rx : List Nat) : List (proto_hdr_t × List Nat) :=
  if PROTO_HDR_LEN + PROTO_CRC_LEN ≤ rx.length then
    if rx.getD 0 0 ||| (rx.getD 1 0 <<< 8) ≠ PROTO_MAGIC then
      rx_accepted_cmds (rx.drop (rx_scan_magic rx 1))
    else
      match hp : proto_parse_frame rx with
      | none => rx_accepted_cmds (rx.drop 2)
      | some (frame_len, hdr, payload) =>
        (if hdr.type = PROTO_TYPE_CMD then [(hdr, payload)] else []) ++
          rx_accepted_cmds (rx.drop frame_len)
  else []
  termination_by rx.length
  decreasing_by
  · have h1 : 1 ≤ rx_scan_magic rx 1 := rx_scan_magic_ge rx 1
    rename_i h18 _
    have h18' : 18 ≤ rx.length := h18
    simp only [List.length_drop]
    omega
  · rename_i h18 _
    have h18' : 18 ≤ rx.length := h18
    simp only [List.length_drop]
    omega
  · have h1 := proto_parse_frame_some_len rx frame_len hdr payload hp
    rename_i h18 _
    have h18' : 18 ≤ rx.length := h18
    simp only [List.length_drop]
    omega

/-- C1: in one RX pass, the responses emitted through the TX response path
are exactly one ACK or NACK per accepted CMD frame, in order, each echoing
that frame's `cmd_id` and `seq` — with no condition on the payload length,
so zero-payload CMD frames such as PING are included. -/
theorem ps_core_process_rx_one_response_per_cmd
    (dispatch : Nat → List Nat → Bool) (rx : List Nat) :
    (ps_core_process_rx dispatch rx).2 =
      (rx_accepted_cmds rx).map (fun f =>
        ⟨if dispatch f.1.cmd_id f.2 then PROTO_TYPE_ACK else PROTO_TYPE_NACK,
         f.1.cmd_id, f.1.seq⟩) := by
  have main : ∀ n rx, List.length rx ≤ n →
      (ps_core_process_rx dispatch rx).2 =
        (rx_accepted_cmds rx).map (fun f =>
          ⟨if dispatch f.1.cmd_id f.2 then PROTO_TYPE_ACK else PROTO_TYPE_NACK,
           f.1.cmd_id, f.1.seq⟩) := by
    intro n
    induction n with
    | zero =>
        intro rx hlen
        rw [ps_core_process_rx, rx_accepted_cmds]
        rw [dif_neg (by simp [PROTO_HDR_LEN, PROTO_CRC_LEN]; omega),
          if_neg (by simp [PROTO_HDR_LEN, PROTO_CRC_LEN]; omega)]
        rfl
    | succ n ih =>
        intro rx hlen
        rw [ps_core_process_rx, rx_accepted_cmds]
        by_cases h18 : PROTO_HDR_LEN + PROTO_CRC_LEN ≤ rx.length
        · rw [dif_pos h18, if_pos h18]
          have h18' : 18 ≤ rx.length := h18
          by_cases hmagic : rx.getD 0 0 ||| (rx.getD 1 0 <<< 8) ≠ PROTO_MAGIC
          · rw [if_pos hmagic, if_pos hmagic]
            exact ih _ (by
              have := rx_scan_magic_ge rx 1
              simp only [List.length_drop]
              omega)
          · rw [if_neg hmagic, if_neg hmagic]
            rcases hparse : proto_parse_frame rx with - | ⟨fl, hdr, pl⟩
            · simp only [hparse]
              exact ih _ (by simp only [List.length_drop]; omega)
            · simp only [hparse]
              have hfl := proto_parse_frame_some_len rx fl hdr pl hparse
              have hrec := ih (rx.drop fl) (by simp only [List.length_drop]; omega)
              rw [hrec, List.map_append]
              by_cases hcmd : hdr.type = PROTO_TYPE_CMD
              · rw [if_pos hcmd, if_pos hcmd]
                rfl
              · rw [if_neg hcmd, if_neg hcmd]
                rfl
        · rw [dif_neg h18, if_neg h18]
          rfl
  exact main rx.length rx le_rfl

/-- A concrete RX queue: a syntactically valid but not-yet-complete CMD frame
head — correct magic, version 0, declared payload length 10, but only the
16 header bytes plus 2 further bytes present (the full frame needs 30). -/
def rx_incomplete_head : List Nat :=
  [0xA5, 0x5A, 1, 0, 10, 0, 5, 0, 1, 0, 0, 0, 0, 0, 0, 0, 0, 0]

/-- Counterexample to C5 as stated: on this 18-byte incomplete-frame head,
`proto_parse_frame` returns 0, yet the RX loop does NOT break with the head
intact — it consumes bytes (the remaining queue differs from the input). -/
theorem ps_core_process_rx_consumes_on_parse_fail :
    (ps_core_process_rx (fun _ _ => false) rx_incomplete_head).1 ≠
      rx_incomplete_head := by
  rw [ps_core_process_rx]
  rw [dif_pos (by decide), if_neg (by decide)]
  have hp : proto_parse_frame rx_incomplete_head = none := by decide
  simp only [hp]
  rw [ps_core_process_rx]
  rw [dif_neg (by decide)]
  decide

/-- C5 amended: whenever at least `HDR_LEN + CRC_LEN` bytes are queued, the
head carries the magic, and `parse_frame` returns 0, the RX loop pops 2
bytes and continues (it does not break, and does not leave the head
unconsumed); the loop only stops, leaving bytes untouched, once fewer than
`HDR_LEN + CRC_LEN` bytes remain. -/
theorem ps_core_process_rx_parse_fail_pops_two
    (dispatch : Nat → List Nat → Bool) (rx : List Nat)
    (h18 : PROTO_HDR_LEN + PROTO_CRC_LEN ≤ rx.length)
    (hmagic : rx.getD 0 0 ||| (rx.getD 1 0 <<< 8) = PROTO_MAGIC)
    (hparse : proto_parse_frame rx = none) :
    ps_core_process_rx dispatch rx = ps_core_process_rx dispatch (rx.drop 2) := by
  rw [ps_core_process_rx, dif_pos h18, if_neg (fun hne => hne hmagic)]
  split
  · rfl
  · rename_i heq
    rw [hparse] at heq
    exact Option.noConfusion heq

/-- Witness for the amended C5 at the concrete incomplete head. -/
theorem ps_core_process_rx_parse_fail_pops_two_witness :
    ps_core_process_rx (fun _ _ => false) rx_incomplete_head =
      ps_core_process_rx (fun _ _ => false) (rx_incomplete_head.drop 2) :=
  ps_core_process_rx_parse_fail_pops_two (fun _ _ => false) rx_incomplete_head
    (by decide) (by decide) (by decide)

/-! ## Command parsers (src/powerscope/src/ps_cmd_parsers.c) -/

/-- Decoded SET_PERIOD command (`cmd_set_period_t`). -/
structure cmd_set_period_t where
  sensor_id : Nat
  period_ms : Nat
  deriving Repr, DecidableEq

/-- Function `ps_parse_set_period`: reject when fewer than 3 payload bytes (the C also
rejects a null/too-small output struct, modelled away by returning the
decoded struct); otherwise decode `sensor_id = payload[0]` and
`period_ms = payload[1] | (payload[2] << 8)`. -/
def ps_parse_set_period (payload : List Nat) : Option cmd_set_period_t :=
  if payload.length < 3 then none
  else some ⟨payload.getD 0 0, payload.getD 1 0 ||| (payload.getD 2 0 <<< 8)⟩

/-- Function `ps_parse_noarg`: succeeds iff the payload is empty. -/
def ps_parse_noarg (payload : List Nat) : Bool := payload.length = 0

/-- Counterexample to C8 as stated: a 4-byte payload is NOT rejected —
`ps_parse_set_period` accepts any payload of length ≥ 3, so "returns false
for every payload whose length is not 3" fails at `[1, 232, 3, 0]`. -/
theorem ps_parse_set_period_accepts_len4 :
    (ps_parse_set_period [1, 232, 3, 0]).isSome = true ∧
      [1, 232, 3, 0].length ≠ 3 ∧
      ps_parse_set_period [1, 232, 3, 0] = some ⟨1, 1000⟩ := by decide

/-- C8 amended: `ps_parse_set_period` (given a non-null output struct of
sufficient size) returns true iff the payload has at least 3 bytes, decoding
`sensor_id = payload[0]` and `period_ms = payload[1] | (payload[2] << 8)`
(little-endian); for every payload shorter than 3 bytes it returns false;
extra bytes beyond the first three are ignored. -/
theorem ps_parse_set_period_len_check (payload : List Nat) :
    (payload.length < 3 → ps_parse_set_period payload = none) ∧
    (3 ≤ payload.length → ps_parse_set_period payload =
      some ⟨payload.getD 0 0, payload.getD 1 0 ||| (payload.getD 2 0 <<< 8)⟩) := by
  constructor <;> intro h <;> unfold ps_parse_set_period
  · rw [if_pos h]
  · rw [if_neg (by omega)]

/-- Witness for the amended C8 at the 3-byte payload `[1, 232, 3]`
(sensor 1, period 1000). -/
theorem ps_parse_set_period_len_check_witness :
    ps_parse_set_period [1, 232, 3] =
      some ⟨[1, 232, 3].getD 0 0, [1, 232, 3].getD 1 0 |||
        ([1, 232, 3].getD 2 0 <<< 8)⟩ :=
  (ps_parse_set_period_len_check [1, 232, 3]).2 (by decide)

/-! ## SET_PERIOD handler and sensor initialization
(src/powerscope/src/ps_app.c, src/powerscope/include/ps_config.h) -/

def PS_STREAM_PERIOD_MS : Nat := 1000
def PS_STREAM_PERIOD_MIN_MS : Nat := 5
def PS_STREAM_PERIOD_MAX_MS : Nat := 10000
def PS_ERR_INVALID_VALUE : Nat := 3

/-- Per-sensor stream state (`ps_core_sensor_stream_t`); the adapter pointer
is abstracted to the `ready` flag that `ps_app_init_sensors` derives from it. -/
structure ps_core_sensor_stream_t where
  runtime_id : Nat
  ready : Bool
  streaming : Bool
  sm : Nat
  seq : Nat
  period_ms : Nat
  default_period_ms : Nat
  max_payload : Nat
  last_emit_ms : Nat
  deriving Repr, DecidableEq

/-- Function `get_sensor_by_runtime_id`: first registered sensor with the given
runtime id. -/
def get_sensor_by_runtime_id (sensors : List ps_core_sensor_stream_t)
    (id : Nat) : Option ps_core_sensor_stream_t :=
  sensors.find? (fun s => s.runtime_id == id)

/-- In-place period update of the sensor `handle_set_period` located
(the first entry with the matching runtime id). -/
def set_period_first (sensors : List ps_core_sensor_stream_t) (id p : Nat) :
    List ps_core_sensor_stream_t :=
  match sensors with
  | [] => []
  | s :: rest =>
    if s.runtime_id = id then { s with period_ms := p } :: rest
    else s :: set_period_first rest id p

/-- Function `handle_set_period`: locate the sensor (absent → NACK `INVALID_VALUE`);
reject `period_ms` outside `[PS_STREAM_PERIOD_MIN_MS, PS_STREAM_PERIOD_MAX_MS]`
with NACK `INVALID_VALUE`; otherwise apply the period and ACK with an empty
payload.  Result: (handled, updated sensors, response payload). -/
def handle_set_period (sensors : List ps_core_sensor_stream_t)
    (cmd : cmd_set_period_t) :
    Bool × List ps_core_sensor_stream_t × List Nat :=
  match get_sensor_by_runtime_id sensors cmd.sensor_id with
  | none => (false, sensors, [PS_ERR_INVALID_VALUE])
  | some _ =>
    if cmd.period_ms < PS_STREAM_PERIOD_MIN_MS ∨
        PS_STREAM_PERIOD_MAX_MS < cmd.period_ms then
      (false, sensors, [PS_ERR_INVALID_VALUE])
    else
      (true, set_period_first sensors cmd.sensor_id cmd.period_ms, [])

/-- Function `ps_app_init_sensors`: one sensor, runtime id 1, ready iff the registry
returned an adapter, default period `PS_STREAM_PERIOD_MS`. -/
def ps_app_init_sensors (adapter_present : Bool) :
    List ps_core_sensor_stream_t :=
  [{ runtime_id := 1, ready := adapter_present, streaming := false, sm := 0,
     seq := 0, period_ms := PS_STREAM_PERIOD_MS,
     default_period_ms := PS_STREAM_PERIOD_MS,
     max_payload := PROTO_MAX_PAYLOAD, last_emit_ms := 0 }]

theorem set_period_first_mem (sensors : List ps_core_sensor_stream_t)
    (id p : Nat) (s : ps_core_sensor_stream_t)
    (hs : s ∈ set_period_first sensors id p) :
    s ∈ sensors ∨ ∃ s0, s0 ∈ sensors ∧ s = { s0 with period_ms := p } := by
  induction sensors with
  | nil => simp [set_period_first] at hs
  | cons a rest ih =>
      unfold set_period_first at hs
      split at hs
      · rcases List.mem_cons.mp hs with h | h
        · exact Or.inr ⟨a, List.mem_cons_self a rest, h⟩
        · exact Or.inl (List.mem_cons_of_mem a h)
      · rcases List.mem_cons.mp hs with h | h
        · exact Or.inl (h ▸ List.mem_cons_self a rest)
        · rcases ih h with h' | ⟨s0, hs0, he⟩
          · exact Or.inl (List.mem_cons_of_mem a h')
          · exact Or.inr ⟨s0, List.mem_cons_of_mem a hs0, he⟩

/-- C7: period invariant.  (i) Initialization assigns every registered sensor
an in-range default period.  (ii) A requested period outside
`[PS_STREAM_PERIOD_MIN_MS, PS_STREAM_PERIOD_MAX_MS]` makes
`handle_set_period` return false with single-byte NACK payload
`INVALID_VALUE`, leaving every sensor — hence every `period_ms` — unchanged.
(iii) An in-range request on a registered sensor returns true with an empty
ACK payload and sets that sensor's `period_ms`.  (iv) Hence the invariant
`period_ms ∈ [MIN, MAX]` for all registered sensors is preserved by every
`handle_set_period` call, so it holds at all times after initialization. -/
theorem handle_set_period_invariant :
    (∀ ap, ∀ s ∈ ps_app_init_sensors ap,
      PS_STREAM_PERIOD_MIN_MS ≤ s.period_ms ∧
        s.period_ms ≤ PS_STREAM_PERIOD_MAX_MS) ∧
    (∀ sensors cmd, (cmd.period_ms < PS_STREAM_PERIOD_MIN_MS ∨
        PS_STREAM_PERIOD_MAX_MS < cmd.period_ms) →
      handle_set_period sensors cmd = (false, sensors, [PS_ERR_INVALID_VALUE])) ∧
    (∀ sensors cmd s,
      get_sensor_by_runtime_id sensors cmd.sensor_id = some s →
      PS_STREAM_PERIOD_MIN_MS ≤ cmd.period_ms →
      cmd.period_ms ≤ PS_STREAM_PERIOD_MAX_MS →
      handle_set_period sensors cmd =
        (true, set_period_first sensors cmd.sensor_id cmd.period_ms, [])) ∧
    (∀ sensors cmd,
      (∀ s ∈ sensors, PS_STREAM_PERIOD_MIN_MS ≤ s.period_ms ∧
        s.period_ms ≤ PS_STREAM_PERIOD_MAX_MS) →
      ∀ s ∈ (handle_set_period sensors cmd).2.1,
        PS_STREAM_PERIOD_MIN_MS ≤ s.period_ms ∧
          s.period_ms ≤ PS_STREAM_PERIOD_MAX_MS) := by
  refine ⟨?_, ?_, ?_, ?_⟩
  · intro ap s hs
    simp only [ps_app_init_sensors, List.mem_singleton] at hs
    subst hs
    exact ⟨by norm_num [PS_STREAM_PERIOD_MIN_MS, PS_STREAM_PERIOD_MS],
      by norm_num [PS_STREAM_PERIOD_MAX_MS, PS_STREAM_PERIOD_MS]⟩
  · intro sensors cmd hout
    unfold handle_set_period
    cases hf : get_sensor_by_runtime_id sensors cmd.sensor_id with
    | none => rfl
    | some s => exact if_pos hout
  · intro sensors cmd s hf hmin hmax
    unfold handle_set_period
    rw [hf]
    exact if_neg (by omega)
  · intro sensors cmd hinv s hs
    unfold handle_set_period at hs
    cases hf : get_sensor_by_runtime_id sensors cmd.sensor_id with
    | none =>
        rw [hf] at hs
        exact hinv s hs
    | some s0 =>
        rw [hf] at hs
        by_cases hout : cmd.period_ms < PS_STREAM_PERIOD_MIN_MS ∨
            PS_STREAM_PERIOD_MAX_MS < cmd.period_ms
        · rw [if_pos hout] at hs
          exact hinv s hs
        · rw [if_neg hout] at hs
          dsimp only at hs
          rcases set_period_first_mem sensors cmd.sensor_id cmd.period_ms s hs
            with h | ⟨s1, _, he⟩
          · exact hinv s h
          · subst he
            push_neg at hout
            exact ⟨hout.1, hout.2⟩

/-- Witness for C7: on the initialized sensor list, period 0 is NACKed with
`INVALID_VALUE` leaving state unchanged, and period 1000 on sensor 1 is
ACKed empty. -/
theorem handle_set_period_invariant_witness :
    (∀ s ∈ ps_app_init_sensors true,
      PS_STREAM_PERIOD_MIN_MS ≤ s.period_ms ∧
        s.period_ms ≤ PS_STREAM_PERIOD_MAX_MS) ∧
    handle_set_period (ps_app_init_sensors true) ⟨1, 0⟩ =
      (false, ps_app_init_sensors true, [PS_ERR_INVALID_VALUE]) ∧
    handle_set_period (ps_app_init_sensors true) ⟨1, 1000⟩ =
      (true, set_period_first (ps_app_init_sensors true) 1 1000, []) :=
  ⟨handle_set_period_invariant.1 true,
   handle_set_period_invariant.2.1 (ps_app_init_sensors true) ⟨1, 0⟩
     (Or.inl (by decide)),
   handle_set_period_invariant.2.2.1 (ps_app_init_sensors true) ⟨1, 1000⟩
     ⟨1, true, false, 0, 0, PS_STREAM_PERIOD_MS, PS_STREAM_PERIOD_MS,
       PROTO_MAX_PAYLOAD, 0⟩
     (by decide) (by decide) (by decide)⟩

end PowerScope
